import Mathlib

/-!
Verification development for the git-reader library
(src/lib/git-reader.js). The JavaScript source is shallowly embedded:
strings are Lean strings over explicit character lists, the closure state
of the coalescing cache decorator is an explicit structure, asynchronous
callback behaviour is recorded as event traces, and regular-expression
tests are translated into executable character-list matchers that follow
the concrete patterns of the source.
-/

namespace GitReader

/-- Single-quote character (U+0027), used when building the git error
message patterns. -/
def quoteChar : Char := Char.ofNat 39

/-- Single-quote as a one-character string. -/
def quoteStr : String := String.mk [quoteChar]

/-- Remainder of the second list after removing the first list as a
literal character prefix, or none when it is not a prefix. -/
def dropPrefixCh : List Char → List Char → Option (List Char)
  | [], l => some l
  | _ :: _, [] => none
  | p :: ps, c :: cs => if p = c then dropPrefixCh ps cs else none

/-- Split at every occurrence of the separator character, like the
JavaScript split method with a one-character separator (the empty string
splits to a list holding one empty string). -/
def splitCh (c : Char) : List Char → List (List Char)
  | [] => [[]]
  | x :: xs =>
    let r := splitCh c xs
    if x = c then [] :: r
    else
      match r with
      | [] => [[x]]
      | y :: ys => (x :: y) :: ys

/-- Joins parts with the separator character, the inverse of splitCh. -/
def joinSep (c : Char) : List (List Char) → List Char
  | [] => []
  | [x] => x
  | x :: y :: ys => x ++ c :: joinSep c (y :: ys)

/-- Whitespace stripped from both ends, modelling the JavaScript trim
method. -/
def trimChars (l : List Char) : List Char :=
  ((l.dropWhile Char.isWhitespace).reverse.dropWhile Char.isWhitespace).reverse

/-- Character class [0-9a-f] used by the hash patterns of the source. -/
def isLowerHexChar (c : Char) : Bool := c.isDigit || ('a' ≤ c && c ≤ 'f')

/-- Holds when the string is a 40-character lowercase hexadecimal hash,
the specification notion of a Historical version identifier. -/
def isLowerHex40 (s : String) : Bool := s.length == 40 && s.data.all isLowerHexChar

/-- True when the second string is a suffix of the first. -/
def strEndsWith (s suffixStr : String) : Bool := suffixStr.data.isSuffixOf s.data

/-- JsError models a JavaScript Error value as the source uses it: a
message plus the optional errno mark that gitExec sets to process.ENOENT
(src/lib/git-reader.js, lines 271 to 275). -/
structure JsError where
  message : String
  errnoENOENT : Bool
deriving Repr, DecidableEq

/-- CACHE_LIFE models src/lib/git-reader.js line 29: a long lifetime for
stable data, 100 ms for volatile data. The NODE_ENV test override of line
32 is not modelled; production values are used. -/
def CACHE_LIFE : List Nat := [36300000, 100]

/-- Version guard of src/lib/git-reader.js line 84: the version must have
length 40 or be the literal string fs. Note the source checks only the
length, not that the characters are hexadecimal. -/
def validVersion (version : String) : Bool :=
  version.length == 40 || version == "fs"

/-- Cache key of src/lib/git-reader.js line 81: the arguments before the
trailing callback joined with a colon. -/
def keyOf (args : List String) : String := String.intercalate ":" args

/-- Externally observable actions of the safe cache wrapper: synchronous
callback invocation, invocation deferred by process.nextTick, and the
start of the wrapped underlying operation. Callbacks are identified by
numeric ids. -/
inductive SafeEvent (α : Type) where
  | invokeNow (cb : Nat) (err : Option JsError) (value : Option α)
  | invokeNextTick (cb : Nat) (err : Option JsError) (value : Option α)
  | startOp (key : String) (args : List String)
deriving Repr, DecidableEq

/-- Closure state of one safe-wrapped function: the cache and queue
objects of src/lib/git-reader.js lines 76 and 77 (a false or absent
entry is none), plus the pending setTimeout expiry timers as pairs of
fire time and key. -/
structure SafeState (α : Type) where
  cache : String → Option α
  queue : String → Option (List Nat)
  timers : List (Nat × String)

/-- Closure state right after safe(fn) returns: empty cache, empty queue,
no timers. -/
def initSafeState {α : Type} : SafeState α :=
  { cache := fun _ => none, queue := fun _ => none, timers := [] }

/-- One invocation of the function returned by safe
(src/lib/git-reader.js lines 79 to 127) up to the point where it returns:
the invalid-version rejection (synchronous callback), the cache hit
(callback deferred by process.nextTick), queueing behind an in-flight
resolution, and starting the wrapped operation with a fresh single-entry
queue. -/
def safeCall {α : Type} (version : String) (rest : List String) (cb : Nat)
    (st : SafeState α) : SafeState α × List (SafeEvent α) :=
  let key := keyOf (version :: rest)
  if validVersion version = false then
    (st, [SafeEvent.invokeNow cb
      (some { message := "Invalid version " ++ version, errnoENOENT := false }) none])
  else
    match st.cache key with
    | some v => (st, [SafeEvent.invokeNextTick cb none (some v)])
    | none =>
      match st.queue key with
      | some q =>
        ({ st with queue := fun k => if k = key then some (q ++ [cb]) else st.queue k }, [])
      | none =>
        ({ st with queue := fun k => if k = key then some [cb] else st.queue k },
          [SafeEvent.startOp key (version :: rest)])

/-- Expiry delay chosen at src/lib/git-reader.js line 114: CACHE_LIFE[1]
when the version is the string fs, CACHE_LIFE[0] otherwise. -/
def ttlOf (version : String) : Nat :=
  if version = "fs" then CACHE_LIFE.getD 1 0 else CACHE_LIFE.getD 0 0

/-- Internal completion callback installed at src/lib/git-reader.js lines
104 to 124: cache the value when it is truthy and schedule its expiry
timer, flush every queued waiter in arrival order with the same err and
value pair, then clear the queue entry for the key. The truthy parameter
supplies JavaScript truthiness for the value type. -/
def safeComplete {α : Type} (version : String) (rest : List String)
    (truthy : α → Bool) (err : Option JsError) (value : Option α) (now : Nat)
    (st : SafeState α) : SafeState α × List (SafeEvent α) :=
  let key := keyOf (version :: rest)
  let waiters := (st.queue key).getD []
  let st1 :=
    match value with
    | some v =>
      if truthy v then
        { st with
          cache := fun k => if k = key then some v else st.cache k,
          timers := st.timers ++ [(now + ttlOf version, key)] }
      else st
    | none => st
  ({ st1 with queue := fun k => if k = key then none else st1.queue k },
    waiters.map fun cb => SafeEvent.invokeNow cb err value)

/-- A sequence of callers for the same wrapped function, folded over
safeCall with the emitted events concatenated in order. -/
def safeCalls {α : Type} (version : String) (rest : List String)
    (cbs : List Nat) (st : SafeState α) : SafeState α × List (SafeEvent α) :=
  match cbs with
  | [] => (st, [])
  | cb :: more =>
    let r := safeCall version rest cb st
    let r2 := safeCalls version rest more r.1
    (r2.1, r.2 ++ r2.2)

/-- Fires every pending expiry timer whose fire time is at most t: each
such cache entry becomes absent, as the setTimeout body of
src/lib/git-reader.js lines 112 to 114 sets the entry to false. -/
def expireDue {α : Type} (t : Nat) (st : SafeState α) : SafeState α :=
  { cache := fun k =>
      if st.timers.any (fun p => decide (p.1 ≤ t) && p.2 == k) then none else st.cache k,
    queue := st.queue,
    timers := st.timers.filter fun p => decide (t < p.1) }

/-- Concrete 40-character lowercase hash used by witnesses. -/
def hashA : String := String.mk (List.replicate 40 'a')

/-- Second concrete 40-character lowercase hash used by witnesses. -/
def hashB : String := String.mk (List.replicate 40 'b')

/-- Result object of readDir: the files and dirs arrays. -/
structure DirListing where
  files : List String
  dirs : List String
deriving Repr, DecidableEq

/-- Observable end of a callback-based operation: the callback invoked
with an error, the callback invoked with a value, or an uncaught
JavaScript exception thrown before any callback runs. -/
inductive CbOutcome (α : Type) where
  | callbackErr (e : JsError)
  | callbackOk (v : α)
  | thrown (message : String)
deriving Repr, DecidableEq

/-- Test of the tree-header pattern at src/lib/git-reader.js line 400: the
text must start with the word tree, a space, a newline-free rest of the
header line, and then a second newline immediately after the first. -/
def treeHeaderTest (text : String) : Bool :=
  match dropPrefixCh ("tree ".data) text.data with
  | none => false
  | some rest =>
    match splitCh '\n' rest with
    | _ :: second :: _ :: _ => second.isEmpty
    | _ => false

/-- Removal of the matched tree header, modelling the replace call at
src/lib/git-reader.js line 405 (meaningful only when treeHeaderTest
holds). -/
def stripTreeHeader (text : String) : String :=
  match dropPrefixCh ("tree ".data) text.data with
  | none => text
  | some rest => String.mk (joinSep '\n' ((splitCh '\n' rest).drop 2))

/-- Historical branch of readDir (src/lib/git-reader.js lines 393 to 423)
applied to the text produced by the subprocess. When the tree-header test
fails, the source evaluates the undeclared identifier named combined on
line 401, so the JavaScript engine throws a ReferenceError before the
intended not-a-directory Error can be constructed, and the callback is
never invoked: that uncaught exception is the thrown outcome. Otherwise
the header is stripped, the body trimmed and split on newlines, and
entries ending in a slash become dirs (slash removed) while the others
become files, in traversal order. -/
def readDirHist (text : String) : CbOutcome DirListing :=
  if treeHeaderTest text = true then
    let body := trimChars (stripTreeHeader text).data
    let entries := (splitCh '\n' body).map String.mk
    CbOutcome.callbackOk
      { files := entries.filter fun e => !(strEndsWith e "/"),
        dirs := (entries.filter fun e => strEndsWith e "/").map fun e =>
          String.mk e.data.dropLast }
  else
    CbOutcome.thrown "ReferenceError: combined is not defined"

/-- Literal pattern piece: the word fatal, a colon and a space. -/
def patFatal : List Char := "fatal: ".data

/-- Literal pattern piece: the word Path, a space and an opening quote. -/
def patPath : List Char := ("Path " ++ quoteStr).data

/-- Literal pattern piece between the path capture and the hash capture of
the first gitENOENT alternative. -/
def patExists : List Char := (quoteStr ++ " does not exist in " ++ quoteStr).data

/-- Literal pattern piece opening the second gitENOENT alternative. -/
def patAmbig : List Char := ("ambiguous argument " ++ quoteStr).data

/-- Literal pattern piece after the argument capture of the second
gitENOENT alternative; the final regex dot is handled separately. -/
def patUnknown : List Char := (quoteStr ++ ": unknown revision or path not in the working tree").data

/-- First alternative of the gitENOENT regex (src/lib/git-reader.js line
36): Path, a nonempty quote-free capture, does not exist in, and a
40-character lowercase hex hash, all quoted. -/
def checkAlt1 (l : List Char) : Bool :=
  match dropPrefixCh patPath l with
  | none => false
  | some rest =>
    let p := rest.takeWhile fun c => c != quoteChar
    let rest2 := rest.dropWhile fun c => c != quoteChar
    if p.isEmpty then false
    else
      match dropPrefixCh patExists rest2 with
      | none => false
      | some rest3 =>
        let sha := rest3.take 40
        sha.length == 40 && sha.all isLowerHexChar
          && (rest3.drop 40).head? == some quoteChar

/-- Second alternative of the gitENOENT regex: ambiguous argument with a
nonempty quote-free capture, the unknown-revision text, and one further
character for the unescaped regex dot (any character except newline). -/
def checkAlt2 (l : List Char) : Bool :=
  match dropPrefixCh patAmbig l with
  | none => false
  | some rest =>
    let a := rest.takeWhile fun c => c != quoteChar
    let rest2 := rest.dropWhile fun c => c != quoteChar
    if a.isEmpty then false
    else
      match dropPrefixCh patUnknown rest2 with
      | none => false
      | some rest3 =>
        match rest3.head? with
        | some c => c != '\n'
        | none => false

/-- One anchoring position of the gitENOENT regex: the fatal prefix
followed by either alternative. -/
def checkFatalAt (l : List Char) : Bool :=
  match dropPrefixCh patFatal l with
  | none => false
  | some rest => checkAlt1 rest || checkAlt2 rest

/-- Unanchored scan of the gitENOENT regex over a character list, leftmost
position first. -/
def gitENOENTTestL : List Char → Bool
  | [] => false
  | c :: rest => checkFatalAt (c :: rest) || gitENOENTTestL rest

/-- The gitENOENT regex test of src/lib/git-reader.js line 36 applied to a
string. -/
def gitENOENTTest (s : String) : Bool := gitENOENTTestL s.data

/-- Error message built by gitExec on nonzero exit
(src/lib/git-reader.js line 271): the word git, the full command line
joined with spaces, a newline, and the captured stderr text. -/
def execMsg (gitCommands commands : List String) (stderr : String) : String :=
  "git " ++ String.intercalate " " (gitCommands ++ commands) ++ "\n" ++ stderr

/-- Result of a finished subprocess invocation. -/
inductive ExecResult where
  | ok (output : String)
  | fail (e : JsError)
deriving Repr, DecidableEq

/-- Completion behaviour of gitExec (src/lib/git-reader.js lines 248 to
285) once the subprocess has closed, as a function of the instance command
prefix, the per-call commands, the exit code and the collected output and
stderr text (already decoded; the encoding plumbing is mechanical). On
nonzero exit the error message embeds the command line and stderr, and the
errno mark is set exactly when the gitENOENT pattern matches that
message. -/
def gitExec (gitCommands commands : List String) (exitCode : Nat)
    (stdout stderr : String) : ExecResult :=
  if exitCode > 0 then
    ExecResult.fail ({ message := execMsg gitCommands commands stderr,
                       errnoENOENT := gitENOENTTest (execMsg gitCommands commands stderr) })
  else ExecResult.ok stdout

/-- Git argument list built by logFile (src/lib/git-reader.js line 295);
the version is passed through verbatim as the revision argument. -/
def logFileArgs (version path : String) : List String :=
  ["log", "-z", "--summary", version, "--", path]

/-- Stderr text git produces when the literal revision fs does not exist,
matching the unknown-revision arm of the gitENOENT pattern. -/
def fsLogStderr : String :=
  "fatal: ambiguous argument " ++ quoteStr ++ "fs" ++ quoteStr
    ++ ": unknown revision or path not in the working tree.\n"

/-- Stderr text git produces for a path missing at a valid hash, matching
the first arm of the gitENOENT pattern. -/
def enoentStderr : String :=
  "fatal: Path " ++ quoteStr ++ "missing.txt" ++ quoteStr ++ " does not exist in "
    ++ quoteStr ++ hashA ++ quoteStr ++ "\n"

/-- Prefix test with at least one following character, modelling one arm
of the fully qualified ref regex of src/lib/git-reader.js line 495 (the
dot of the regex does not match a newline). -/
def hasPrefixPlus (p s : String) : Bool :=
  match dropPrefixCh p.data s.data with
  | none => false
  | some [] => false
  | some (c :: _) => c != '\n'

/-- Fully qualified ref test of src/lib/git-reader.js line 495. -/
def isFullPath (branch : String) : Bool :=
  hasPrefixPlus "heads/" branch || hasPrefixPlus "remotes/" branch
    || hasPrefixPlus "tags/" branch

/-- Character class of the remotes shorthand regex of
src/lib/git-reader.js line 496. -/
def wordy (c : Char) : Bool :=
  c.isAlphanum || c == '_' || c == '!' || c == '@' || c == '#' || c == '$'
    || c == '%' || c == '+' || c == '=' || c == '-'

/-- Remotes shorthand test of src/lib/git-reader.js line 496: exactly two
nonempty class-restricted segments separated by one slash. -/
def isRemotes (branch : String) : Bool :=
  match splitCh '/' branch.data with
  | [a, b] => !a.isEmpty && !b.isEmpty && a.all wordy && b.all wordy
  | _ => false

/-- Candidate ref pattern tried against the show-ref output: either a
literal key, or the remote-tracking wildcard whose cache key embeds the
literal group marker while its regex use matches any remote name. -/
inductive RefPat where
  | lit (key : String)
  | wild (branch : String)
deriving Repr, DecidableEq

/-- Cache key stored for a candidate by checkDone
(src/lib/git-reader.js lines 549 to 557): the literal key text, including
the group marker for the wildcard candidate. -/
def patKey : RefPat → String
  | RefPat.lit k => k
  | RefPat.wild b => "remotes/(.+)/" ++ b

/-- Line match for a literal candidate: a 40-character lowercase hex hash,
a space, and exactly the text refs/ followed by the key
(src/lib/git-reader.js line 563 with the multiline flag, so each line is
matched in full). -/
def matchLiteralRef (key line : String) : Option String :=
  let sha := line.data.take 40
  let rest := line.data.drop 40
  if sha.length == 40 && sha.all isLowerHexChar && rest == (" refs/" ++ key).data
  then some (String.mk sha) else none

/-- Line match for the remote wildcard candidate: hash, space, the text
refs/remotes/, at least one character for the group, a slash, and the
branch name at the end of the line. -/
def matchRemoteWildcard (branch line : String) : Option String :=
  let sha := line.data.take 40
  let rest := line.data.drop 40
  let pre := " refs/remotes/".data
  let suf := ("/" ++ branch).data
  if sha.length == 40 && sha.all isLowerHexChar
      && pre.isPrefixOf rest && suf.isSuffixOf rest
      && decide (pre.length + 1 + suf.length ≤ rest.length)
  then some (String.mk sha) else none

/-- First line of the show-ref output matching the candidate pattern. -/
def scanRef (pat : RefPat) (lines : List String) : Option String :=
  match pat with
  | RefPat.lit key => lines.findSome? fun l => matchLiteralRef key l
  | RefPat.wild b => lines.findSome? fun l => matchRemoteWildcard b l

/-- Candidate order of getBranchSha (src/lib/git-reader.js lines 574 to
586): the literal key for a fully qualified name, the remotes expansion
for the shorthand, and otherwise heads, then the remote wildcard, then
tags. -/
def branchCandidates (branch : String) : List RefPat :=
  if isFullPath branch then [RefPat.lit branch]
  else if isRemotes branch then [RefPat.lit ("remotes/" ++ branch)]
  else [RefPat.lit ("heads/" ++ branch), RefPat.wild branch,
    RefPat.lit ("tags/" ++ branch)]

/-- Scan of the show-ref callback of getBranchSha on a fresh instance
(empty branch cache and queue): candidates are tried in order and the
first that matches a line decides the stored key and returned hash. -/
def getBranchShaScan (branch showRefOutput : String) : Option (String × String) :=
  (branchCandidates branch).findSome? fun pat =>
    (scanRef pat ((splitCh '\n' showRefOutput.data).map String.mk)).map fun sha =>
      (patKey pat, sha)

/-- Concrete show-ref output with both a heads and a tags ref for the
branch name main. -/
def showRefOut : String :=
  hashA ++ " refs/heads/main\n" ++ hashB ++ " refs/tags/main"

/-- The metadata directory as a partial map from file path (relative to
the git directory) to text content. -/
structure RepoFs where
  files : String → Option String

/-- Externally observable I/O of getHeadSha: the packed-refs existence
check, the git gc subprocess call, and each file read. -/
inductive HeadEvent where
  | existsCheck (path : String) (found : Bool)
  | gcCall
  | readFileEv (path : String)
deriving Repr, DecidableEq

/-- What the queued callbacks of getHeadSha observe: groupCallback invoked
with an error or a hash, or hang when the checkDone guard can never pass
and no queued callback is ever invoked. -/
inductive HeadOutcome where
  | result (err : Option JsError) (sha : Option String)
  | hang
deriving Repr, DecidableEq

/-- HEAD file parse of src/lib/git-reader.js line 199, anchored at both
ends: the content must be exactly the ref prefix, a newline-free capture,
and one final newline; the capture is returned. -/
def headRefMatch (content : String) : Option String :=
  match dropPrefixCh ("ref: ".data) content.data with
  | none => none
  | some rest =>
    match rest.reverse with
    | [] => none
    | last :: revX =>
      if last = '\n' && revX.all (fun c => c != '\n') then
        some (String.mk revX.reverse)
      else none

/-- Checks a 40-character lowercase hex run at the head of the list whose
continuation satisfies the given test, returning the run. -/
def checkHex40At (after : List Char → Bool) (l : List Char) : Option (List Char) :=
  let sha := l.take 40
  if sha.length == 40 && sha.all isLowerHexChar && after (l.drop 40) then some sha else none

/-- Unanchored scan for a hex run with the given continuation, leftmost
position first, modelling an unanchored regex search for a hash. -/
def findHex40 (after : List Char → Bool) : List Char → Option (List Char)
  | [] => none
  | c :: rest =>
    match checkHex40At after (c :: rest) with
    | some sha => some sha
    | none => findHex40 after rest

/-- Continuation for the loose-ref pattern of src/lib/git-reader.js line
226: the hash must be followed by a newline. -/
def afterNl (r : List Char) : Bool := r.head? == some '\n'

/-- Continuation for the packed-refs pattern of src/lib/git-reader.js
line 229: the hash must be followed by a space and then the ref path
text. -/
def afterSpaceRef (head : List Char) (r : List Char) : Bool :=
  match r with
  | [] => false
  | c :: rest => c == ' ' && head.isPrefixOf rest

/-- The getHEAD flow of src/lib/git-reader.js lines 181 to 242 on a
quiescent filesystem: the packed-refs read, the HEAD read and parse, the
tolerated loose-ref read (a read error or empty content leaves the master
value null), and the checkDone join. The three reads commute, so the model
runs them in program order; hang means the checkDone guard (which requires
the head and packed-refs strings to be truthy, that is nonempty) can never
pass, so no queued callback is ever invoked. Error messages follow the
node and JavaScript failures of each path. -/
def getHEADRun (fs : RepoFs) : List HeadEvent × HeadOutcome :=
  match fs.files "packed-refs" with
  | none =>
    ([HeadEvent.readFileEv "packed-refs", HeadEvent.readFileEv "HEAD"],
      HeadOutcome.result (some { message := "ENOENT: packed-refs", errnoENOENT := true }) none)
  | some packedRefs =>
    match fs.files "HEAD" with
    | none =>
      ([HeadEvent.readFileEv "packed-refs", HeadEvent.readFileEv "HEAD"],
        HeadOutcome.result (some { message := "ENOENT: HEAD", errnoENOENT := true }) none)
    | some headContent =>
      match headRefMatch headContent with
      | none =>
        ([HeadEvent.readFileEv "packed-refs", HeadEvent.readFileEv "HEAD"],
          HeadOutcome.result (some { message := "TypeError: match result is null", errnoENOENT := false }) none)
      | some head =>
        let evs := [HeadEvent.readFileEv "packed-refs", HeadEvent.readFileEv "HEAD",
          HeadEvent.readFileEv head]
        let master : Option String :=
          match fs.files head with
          | some c => if c = "" then none else some c
          | none => none
        if head = "" ∨ packedRefs = "" then (evs, HeadOutcome.hang)
        else
          match master with
          | some m =>
            match findHex40 afterNl m.data with
            | some sha => (evs, HeadOutcome.result none (some (String.mk sha)))
            | none =>
              (evs, HeadOutcome.result (some { message := "TypeError: match result is null", errnoENOENT := false }) none)
          | none =>
            match findHex40 (afterSpaceRef head.data) packedRefs.data with
            | some sha => (evs, HeadOutcome.result none (some (String.mk sha)))
            | none =>
              (evs, HeadOutcome.result (some { message := "TypeError: match result is null", errnoENOENT := false }) none)

/-- The getHeadSha method (src/lib/git-reader.js lines 136 to 243) on a
fresh instance (no sha cache, empty queue): the packed-refs existence
check, the git gc maintenance call when it is absent (the filesystem
after gc is the gcFs parameter; the gc error is ignored by the source),
and then the getHEAD flow. The sha cache write and its 100 ms expiry on
success are not needed by any claim and are not modelled. -/
def getHeadShaRun (fs gcFs : RepoFs) : List HeadEvent × HeadOutcome :=
  match fs.files "packed-refs" with
  | some _ =>
    (HeadEvent.existsCheck "packed-refs" true :: (getHEADRun fs).1, (getHEADRun fs).2)
  | none =>
    (HeadEvent.existsCheck "packed-refs" false :: HeadEvent.gcCall :: (getHEADRun gcFs).1,
      (getHEADRun gcFs).2)

/-- Filesystem with no files at all; in particular packed-refs is
absent. -/
def fsMissingPR : RepoFs := { files := fun _ => none }

/-- Concrete packed-refs content mapping the master ref to hashA. -/
def prContent : String := hashA ++ " refs/heads/master\n"

/-- Filesystem after git gc: packed-refs and HEAD present, no loose
ref. -/
def fsAfterGc : RepoFs :=
  { files := fun p =>
      if p = "packed-refs" then some prContent
      else if p = "HEAD" then some "ref: refs/heads/master\n"
      else none }

/-- Filesystem whose packed-refs exists but is empty, with a well-formed
HEAD. -/
def fsEmptyPR : RepoFs :=
  { files := fun p =>
      if p = "packed-refs" then some ""
      else if p = "HEAD" then some "ref: refs/heads/master\n"
      else none }

/-- Safe-cache state with one waiter (id 5) queued for the hashA key, used
by the error-completion witness. -/
def stQ : SafeState String :=
  { cache := fun _ => none,
    queue := fun k => if k = keyOf [hashA, "p"] then some [5] else none,
    timers := [] }

/-- A call with a valid version, no cached value and no queue starts the
wrapped operation and installs a single-entry queue, leaving cache and
timers untouched. -/
theorem safeCall_fresh {α : Type} (version : String) (rest : List String)
    (cb : Nat) (st : SafeState α)
    (hv : validVersion version = true)
    (hc : st.cache (keyOf (version :: rest)) = none)
    (hq : st.queue (keyOf (version :: rest)) = none) :
    (safeCall version rest cb st).2
        = [SafeEvent.startOp (keyOf (version :: rest)) (version :: rest)] ∧
    (safeCall version rest cb st).1.queue (keyOf (version :: rest)) = some [cb] ∧
    (safeCall version rest cb st).1.cache = st.cache ∧
    (safeCall version rest cb st).1.timers = st.timers := by
  simp [safeCall, hv, hc, hq]

/-- A call with a valid version, no cached value and an existing queue
appends the caller to the queue, emits nothing and leaves cache and timers
untouched. -/
theorem safeCall_queued {α : Type} (version : String) (rest : List String)
    (cb : Nat) (st : SafeState α) (q : List Nat)
    (hv : validVersion version = true)
    (hc : st.cache (keyOf (version :: rest)) = none)
    (hq : st.queue (keyOf (version :: rest)) = some q) :
    (safeCall version rest cb st).2 = [] ∧
    (safeCall version rest cb st).1.queue (keyOf (version :: rest)) = some (q ++ [cb]) ∧
    (safeCall version rest cb st).1.cache = st.cache ∧
    (safeCall version rest cb st).1.timers = st.timers := by
  simp [safeCall, hv, hc, hq]

/-- A whole sequence of calls arriving behind an existing queue emits no
events and appends the callers in arrival order. -/
theorem safeCalls_queued {α : Type} (version : String) (rest : List String)
    (cbs : List Nat) (hv : validVersion version = true) :
    ∀ (st : SafeState α) (q : List Nat),
      st.cache (keyOf (version :: rest)) = none →
      st.queue (keyOf (version :: rest)) = some q →
      (safeCalls version rest cbs st).2 = [] ∧
      (safeCalls version rest cbs st).1.queue (keyOf (version :: rest)) = some (q ++ cbs) ∧
      (safeCalls version rest cbs st).1.cache = st.cache ∧
      (safeCalls version rest cbs st).1.timers = st.timers := by
  induction cbs with
  | nil =>
    intro st q hc hq
    simp [safeCalls, hq]
  | cons cb more ih =>
    intro st q hc hq
    obtain ⟨h1, h2, h3, h4⟩ := safeCall_queued version rest cb st q hv hc hq
    have hc2 : (safeCall version rest cb st).1.cache (keyOf (version :: rest)) = none := by
      rw [h3]; exact hc
    obtain ⟨g1, g2, g3, g4⟩ := ih (safeCall version rest cb st).1 (q ++ [cb]) hc2 h2
    refine ⟨?_, ?_, ?_, ?_⟩
    · simp [safeCalls, h1, g1]
    · simp only [safeCalls]
      rw [g2]
      simp
    · simp only [safeCalls]
      rw [g3, h3]
    · simp only [safeCalls]
      rw [g4, h4]

/-- The flush of the internal completion callback: waiters are exactly the
queued callbacks, each invoked with the same err and value pair, and the
queue entry is cleared. -/
theorem safeComplete_flush {α : Type} (version : String) (rest : List String)
    (truthy : α → Bool) (err : Option JsError) (value : Option α) (now : Nat)
    (st : SafeState α) (w : List Nat)
    (hq : st.queue (keyOf (version :: rest)) = some w) :
    (safeComplete version rest truthy err value now st).2
        = w.map (fun cb => SafeEvent.invokeNow cb err value) ∧
    (safeComplete version rest truthy err value now st).1.queue
        (keyOf (version :: rest)) = none := by
  constructor
  · simp [safeComplete, hq]
  · simp [safeComplete]

/-- Claim C1: while no cached value exists for a key and no resolution is
yet in flight, a burst of callers for that key starts the wrapped
operation exactly once (the only emitted start event comes from the first
caller), all callers are queued in arrival order, and the completion
flushes every queued waiter in that order with the identical err and
value pair, clearing the in-flight queue entry. -/
theorem safe_coalesces_single_execution {α : Type} (version : String)
    (rest : List String) (c : Nat) (cs : List Nat) (st : SafeState α)
    (truthy : α → Bool) (err : Option JsError) (value : Option α) (now : Nat)
    (hv : validVersion version = true)
    (hc : st.cache (keyOf (version :: rest)) = none)
    (hq : st.queue (keyOf (version :: rest)) = none) :
    (safeCalls version rest (c :: cs) st).2
        = [SafeEvent.startOp (keyOf (version :: rest)) (version :: rest)] ∧
    (safeCalls version rest (c :: cs) st).1.queue (keyOf (version :: rest))
        = some (c :: cs) ∧
    (safeComplete version rest truthy err value now
        (safeCalls version rest (c :: cs) st).1).2
        = (c :: cs).map (fun cb => SafeEvent.invokeNow cb err value) ∧
    (safeComplete version rest truthy err value now
        (safeCalls version rest (c :: cs) st).1).1.queue (keyOf (version :: rest))
        = none := by
  obtain ⟨h1, h2, h3, h4⟩ := safeCall_fresh version rest c st hv hc hq
  have hc2 : (safeCall version rest c st).1.cache (keyOf (version :: rest)) = none := by
    rw [h3]; exact hc
  obtain ⟨g1, g2, g3, g4⟩ := safeCalls_queued version rest cs hv
    (safeCall version rest c st).1 [c] hc2 h2
  have e1 : (safeCalls version rest (c :: cs) st).2
      = [SafeEvent.startOp (keyOf (version :: rest)) (version :: rest)] := by
    simp only [safeCalls]
    rw [h1, g1]
    simp
  have e2 : (safeCalls version rest (c :: cs) st).1.queue (keyOf (version :: rest))
      = some (c :: cs) := by
    simp only [safeCalls]
    rw [g2]
    simp
  obtain ⟨f1, f2⟩ := safeComplete_flush version rest truthy err value now
    (safeCalls version rest (c :: cs) st).1 (c :: cs) e2
  exact ⟨e1, e2, f1, f2⟩

/-- Claim C1 witness: three concrete callers for the hashA key produce one
start event and, on completion, three identical flushes in arrival
order. -/
theorem safe_coalesces_single_execution_witness :
    validVersion hashA = true ∧
    (safeCalls (α := String) hashA ["p"] [0, 1, 2] initSafeState).2
        = [SafeEvent.startOp (keyOf [hashA, "p"]) [hashA, "p"]] ∧
    (safeComplete hashA ["p"] (fun s => s != "") none (some "v") 0
        (safeCalls (α := String) hashA ["p"] [0, 1, 2] initSafeState).1).2
        = [SafeEvent.invokeNow 0 none (some "v"), SafeEvent.invokeNow 1 none (some "v"),
           SafeEvent.invokeNow 2 none (some "v")] := by
  have h := safe_coalesces_single_execution (α := String) hashA ["p"] 0 [1, 2]
    initSafeState (fun s => s != "") none (some "v") 0 (by decide) rfl rfl
  exact ⟨by decide, h.1, h.2.2.1⟩

/-- Claim C2 (amended): when the version is neither a 40-character string
nor the literal fs sentinel, the call fails synchronously, on the same
tick, with the Invalid version error, without starting the wrapped
operation and without modifying cache, queue or timers: the whole state is
returned unchanged and the only event is an immediate callback
invocation. -/
theorem invalid_version_rejected {α : Type} (version : String)
    (rest : List String) (cb : Nat) (st : SafeState α)
    (hv : validVersion version = false) :
    safeCall version rest cb st
      = (st, [SafeEvent.invokeNow cb
          (some { message := "Invalid version " ++ version, errnoENOENT := false }) none]) := by
  simp [safeCall, hv]

/-- Claim C2 witness: the 10-character version 0123456789 is rejected
synchronously with the Invalid version error and no state change. -/
theorem invalid_version_rejected_witness :
    validVersion "0123456789" = false ∧
    safeCall (α := String) "0123456789" [] 7 initSafeState
      = (initSafeState, [SafeEvent.invokeNow 7
          (some { message := "Invalid version 0123456789", errnoENOENT := false }) none]) :=
  ⟨by decide, invalid_version_rejected "0123456789" [] 7 initSafeState (by decide)⟩

/-- Claim C2 counterexample: a 40-character string of the letter z is
neither a lowercase hex hash nor the fs sentinel, yet the wrapper accepts
it and starts the wrapped operation (the guard checks only the length);
and a genuinely invalid 10-character version is rejected by a synchronous
callback invocation, not one deferred to the next tick. -/
theorem invalid_version_counterexample :
    (isLowerHex40 (String.mk (List.replicate 40 'z')) = false ∧
      String.mk (List.replicate 40 'z') ≠ "fs" ∧
      (safeCall (α := String) (String.mk (List.replicate 40 'z')) ["p"] 0 initSafeState).2
        = [SafeEvent.startOp (keyOf [String.mk (List.replicate 40 'z'), "p"])
            [String.mk (List.replicate 40 'z'), "p"]]) ∧
    (safeCall (α := String) "0123456789" [] 1 initSafeState).2
      = [SafeEvent.invokeNow 1
          (some { message := "Invalid version 0123456789", errnoENOENT := false }) none] := by
  decide

/-- Claim C3: a truthy value stored by the completion callback is cached
under its key with a scheduled expiry of CACHE_LIFE[0] = 36300000 ms when
the version is a 40-character hash and CACHE_LIFE[1] = 100 ms when the
version is the fs sentinel; with no other timers pending the entry is
still cached at every instant strictly before the fire time and is gone
from the fire time on. -/
theorem cache_ttl_by_version_kind {α : Type} (version : String)
    (rest : List String) (truthy : α → Bool) (v : α) (err : Option JsError)
    (now : Nat) (st : SafeState α)
    (hv : validVersion version = true)
    (ht : truthy v = true)
    (htimers : st.timers = []) :
    (safeComplete version rest truthy err (some v) now st).1.cache
        (keyOf (version :: rest)) = some v ∧
    (safeComplete version rest truthy err (some v) now st).1.timers
        = [(now + ttlOf version, keyOf (version :: rest))] ∧
    (version.length = 40 → ttlOf version = 36300000) ∧
    (version = "fs" → ttlOf version = 100) ∧
    (∀ t, t < now + ttlOf version →
      (expireDue t (safeComplete version rest truthy err (some v) now st).1).cache
        (keyOf (version :: rest)) = some v) ∧
    (∀ t, now + ttlOf version ≤ t →
      (expireDue t (safeComplete version rest truthy err (some v) now st).1).cache
        (keyOf (version :: rest)) = none) := by
  have hcache : (safeComplete version rest truthy err (some v) now st).1.cache
      (keyOf (version :: rest)) = some v := by
    simp [safeComplete, ht]
  have htm : (safeComplete version rest truthy err (some v) now st).1.timers
      = [(now + ttlOf version, keyOf (version :: rest))] := by
    simp [safeComplete, ht, htimers]
  have hlong : version.length = 40 → ttlOf version = 36300000 := by
    intro h40
    have hfs : version ≠ "fs" := by
      intro he
      rw [he] at h40
      exact absurd h40 (by decide)
    unfold ttlOf
    rw [if_neg hfs]
    rfl
  have hshort : version = "fs" → ttlOf version = 100 := by
    intro he
    unfold ttlOf
    rw [if_pos he]
    rfl
  refine ⟨hcache, htm, hlong, hshort, ?_, ?_⟩
  · intro t ht2
    have hnle : ¬ (now + ttlOf version ≤ t) := by omega
    simp [expireDue, htm, hnle, hcache]
  · intro t ht2
    simp [expireDue, htm, ht2]

/-- Claim C3 witness: a stored value under the 40-character hashA key gets
the 36300000 ms timer; under the fs key it gets the 100 ms timer, is still
cached at time 99 and is gone at time 100. -/
theorem cache_ttl_by_version_kind_witness :
    validVersion hashA = true ∧ validVersion "fs" = true ∧
    (safeComplete (α := String) hashA ["p"] (fun s => s != "") none (some "v") 0
        initSafeState).1.timers = [(36300000, keyOf [hashA, "p"])] ∧
    (safeComplete (α := String) "fs" ["p"] (fun s => s != "") none (some "v") 0
        initSafeState).1.timers = [(100, keyOf ["fs", "p"])] ∧
    (expireDue 99 (safeComplete (α := String) "fs" ["p"] (fun s => s != "") none
        (some "v") 0 initSafeState).1).cache (keyOf ["fs", "p"]) = some "v" ∧
    (expireDue 100 (safeComplete (α := String) "fs" ["p"] (fun s => s != "") none
        (some "v") 0 initSafeState).1).cache (keyOf ["fs", "p"]) = none := by
  have hA := cache_ttl_by_version_kind (α := String) hashA ["p"] (fun s => s != "")
    "v" none 0 initSafeState (by decide) (by decide) rfl
  have hF := cache_ttl_by_version_kind (α := String) "fs" ["p"] (fun s => s != "")
    "v" none 0 initSafeState (by decide) (by decide) rfl
  refine ⟨by decide, by decide, ?_, ?_, ?_, ?_⟩
  · have h1 := hA.2.1
    have h2 : ttlOf hashA = 36300000 := hA.2.2.1 (by decide)
    rw [h2] at h1
    simpa using h1
  · have h1 := hF.2.1
    have h2 : ttlOf "fs" = 100 := hF.2.2.2.1 rfl
    rw [h2] at h1
    simpa using h1
  · exact hF.2.2.2.2.1 99 (by decide)
  · exact hF.2.2.2.2.2 100 (by decide)

/-- Claim C9: a completion carrying an error and no value caches nothing
and schedules no timer (cache and timers unchanged), flushes every queued
waiter with that error, clears the in-flight queue entry, and a subsequent
call for the same key starts the wrapped operation again instead of
replaying the failure. -/
theorem error_not_cached {α : Type} (version : String) (rest : List String)
    (truthy : α → Bool) (e : JsError) (now : Nat) (st : SafeState α)
    (w : List Nat) (cb : Nat)
    (hv : validVersion version = true)
    (hc : st.cache (keyOf (version :: rest)) = none)
    (hq : st.queue (keyOf (version :: rest)) = some w) :
    (safeComplete version rest truthy (some e) none now st).1.cache = st.cache ∧
    (safeComplete version rest truthy (some e) none now st).1.timers = st.timers ∧
    (safeComplete version rest truthy (some e) none now st).2
        = w.map (fun cbq => SafeEvent.invokeNow cbq (some e) none) ∧
    (safeComplete version rest truthy (some e) none now st).1.queue
        (keyOf (version :: rest)) = none ∧
    (safeCall version rest cb (safeComplete version rest truthy (some e) none now st).1).2
        = [SafeEvent.startOp (keyOf (version :: rest)) (version :: rest)] := by
  have h1 : (safeComplete version rest truthy (some e) none now st).1.cache = st.cache := by
    simp [safeComplete]
  have h2 : (safeComplete version rest truthy (some e) none now st).1.timers = st.timers := by
    simp [safeComplete]
  obtain ⟨h3, h4⟩ := safeComplete_flush version rest truthy (some e) none now st w hq
  have hc2 : (safeComplete version rest truthy (some e) none now st).1.cache
      (keyOf (version :: rest)) = none := by
    rw [h1]; exact hc
  have h5 := (safeCall_fresh version rest cb
    (safeComplete version rest truthy (some e) none now st).1 hv hc2 h4).1
  exact ⟨h1, h2, h3, h4, h5⟩

/-- Claim C9 witness: completing the hashA key with an error flushes the
single queued waiter with that error, and a next call starts the wrapped
operation again. -/
theorem error_not_cached_witness :
    validVersion hashA = true ∧
    stQ.queue (keyOf [hashA, "p"]) = some [5] ∧
    (safeComplete (α := String) hashA ["p"] (fun s => s != "")
        (some { message := "boom", errnoENOENT := false }) none 0 stQ).2
      = [SafeEvent.invokeNow 5 (some { message := "boom", errnoENOENT := false }) none] ∧
    (safeCall (α := String) hashA ["p"] 6
        (safeComplete (α := String) hashA ["p"] (fun s => s != "")
          (some { message := "boom", errnoENOENT := false }) none 0 stQ).1).2
      = [SafeEvent.startOp (keyOf [hashA, "p"]) [hashA, "p"]] := by
  have h := error_not_cached (α := String) hashA ["p"] (fun s => s != "")
    { message := "boom", errnoENOENT := false } 0 stQ [5] 6
    (by decide) rfl (by simp [stQ])
  exact ⟨by decide, by simp [stQ], h.2.2.1, h.2.2.2.2⟩

/-- Claim C4 evidence: on subprocess text that does not begin with the
tree header (here a blob body), the historical readDir branch evaluates
the undeclared identifier named combined and throws a ReferenceError; the
callback is never invoked, so no not-a-directory error is delivered. -/
theorem readDir_non_tree_throws :
    treeHeaderTest "hello\n" = false ∧
    readDirHist "hello\n" = CbOutcome.thrown "ReferenceError: combined is not defined" := by
  decide

/-- Claim C5 (amended): a logFile call with the live sentinel fs is not
rejected up front: fs passes the version guard, the wrapped operation is
started, and its git argument list carries fs verbatim as the revision;
the subsequent git failure (unknown revision fs) surfaces as the
ExecutionError built by gitExec, marked as not-found via the errno flag.
No unsupported-operation error exists anywhere in the source. -/
theorem logFile_live_not_rejected (path : String) (cb : Nat) :
    validVersion "fs" = true ∧
    (safeCall (α := String) "fs" [path] cb initSafeState).2
      = [SafeEvent.startOp (keyOf ["fs", path]) ["fs", path]] ∧
    logFileArgs "fs" path = ["log", "-z", "--summary", "fs", "--", path] ∧
    gitExec [] (logFileArgs "fs" "a.txt") 128 "" fsLogStderr
      = ExecResult.fail
          { message := execMsg [] (logFileArgs "fs" "a.txt") fsLogStderr,
            errnoENOENT := true } := by
  have hv : validVersion "fs" = true := by decide
  refine ⟨hv, ?_, rfl, by decide⟩
  simp [safeCall, hv, initSafeState]

/-- Claim C5 counterexample: at the concrete live-version call
logFile(fs, a.txt), the safe wrapper accepts the version and starts the
wrapped subprocess operation rather than failing, and the eventual
delivered failure is the gitExec ExecutionError for the unknown revision
fs (marked not-found), not an unsupported-operation rejection. -/
theorem logFile_live_counterexample :
    validVersion "fs" = true ∧
    (safeCall (α := String) "fs" ["a.txt"] 0 initSafeState).2
      = [SafeEvent.startOp (keyOf ["fs", "a.txt"]) ["fs", "a.txt"]] ∧
    gitExec [] (logFileArgs "fs" "a.txt") 128 "" fsLogStderr
      = ExecResult.fail
          { message := execMsg [] (logFileArgs "fs" "a.txt") fsLogStderr,
            errnoENOENT := true } := by
  decide

/-- Claim C6: for a bare branch name the candidate refs are tried in the
fixed order heads, then the remote-tracking wildcard, then tags, and the
first candidate to resolve against the show-ref output decides the
result, so a resolving heads candidate wins outright. -/
theorem getBranchSha_candidate_order (branch text h : String)
    (hfp : isFullPath branch = false)
    (hrm : isRemotes branch = false)
    (hheads : scanRef (RefPat.lit ("heads/" ++ branch))
        ((splitCh '\n' text.data).map String.mk) = some h) :
    branchCandidates branch
      = [RefPat.lit ("heads/" ++ branch), RefPat.wild branch,
          RefPat.lit ("tags/" ++ branch)] ∧
    getBranchShaScan branch text = some ("heads/" ++ branch, h) := by
  constructor
  · simp [branchCandidates, hfp, hrm]
  · simp [getBranchShaScan, branchCandidates, hfp, hrm, List.findSome?_cons, hheads, patKey]

/-- Claim C6 witness: with both refs heads/main and tags/main present in
the show-ref output (and the tags candidate resolving on its own), the
bare name main resolves to the heads/main hash. -/
theorem getBranchSha_candidate_order_witness :
    isFullPath "main" = false ∧ isRemotes "main" = false ∧
    scanRef (RefPat.lit "tags/main") ((splitCh '\n' showRefOut.data).map String.mk)
      = some hashB ∧
    getBranchShaScan "main" showRefOut = some ("heads/main", hashA) := by
  refine ⟨by decide, by decide, by decide, ?_⟩
  exact (getBranchSha_candidate_order "main" showRefOut hashA
    (by decide) (by decide) (by decide)).2

/-- Appending characters to a string concatenates the underlying
character lists. -/
theorem strData_append (s t : String) : (s ++ t).data = s.data ++ t.data := by
  cases s; cases t; rfl

/-- The unanchored gitENOENT scan is monotone under prepending text: a
match inside the tail is still a match in the whole. -/
theorem gitENOENTTestL_append (l1 l2 : List Char) (h : gitENOENTTestL l2 = true) :
    gitENOENTTestL (l1 ++ l2) = true := by
  induction l1 with
  | nil => simpa using h
  | cons c cs ih =>
    rw [List.cons_append]
    show (checkFatalAt (c :: (cs ++ l2)) || gitENOENTTestL (cs ++ l2)) = true
    rw [ih]
    simp

/-- String form of the prepend monotonicity of the gitENOENT test. -/
theorem gitENOENTTest_append (s t : String) (h : gitENOENTTest t = true) :
    gitENOENTTest (s ++ t) = true := by
  unfold gitENOENTTest
  rw [strData_append]
  exact gitENOENTTestL_append _ _ h

/-- Claim C8: every nonzero-exit gitExec completion yields the
ExecutionError whose message is the command line followed by the captured
stderr text, with the not-found errno mark equal to the gitENOENT pattern
test on that message; in particular, whenever the captured stderr itself
matches the pattern, the error carries the not-found mark. -/
theorem gitExec_error_classification (gitCommands commands : List String)
    (exitCode : Nat) (stdout stderr : String) (h : 0 < exitCode) :
    gitExec gitCommands commands exitCode stdout stderr
      = ExecResult.fail
          { message := execMsg gitCommands commands stderr,
            errnoENOENT := gitENOENTTest (execMsg gitCommands commands stderr) } ∧
    (gitENOENTTest stderr = true →
      gitENOENTTest (execMsg gitCommands commands stderr) = true) := by
  constructor
  · simp [gitExec, h]
  · intro hs
    show gitENOENTTest (("git " ++ String.intercalate " " (gitCommands ++ commands)
      ++ "\n") ++ stderr) = true
    exact gitENOENTTest_append _ _ hs

/-- Claim C8 witness: reading a missing path at a valid hash (concrete
stderr matching the path-does-not-exist arm) under nonzero exit yields the
ExecutionError marked not-found. -/
theorem gitExec_error_classification_witness :
    (0 : Nat) < 1 ∧ gitENOENTTest enoentStderr = true ∧
    gitExec ["--git-dir=/r/.git"] ["show", "deadbeef:missing.txt"] 1 "" enoentStderr
      = ExecResult.fail
          { message := execMsg ["--git-dir=/r/.git"] ["show", "deadbeef:missing.txt"] enoentStderr,
            errnoENOENT := true } := by
  refine ⟨by decide, by decide, ?_⟩
  rw [(gitExec_error_classification ["--git-dir=/r/.git"] ["show", "deadbeef:missing.txt"]
    1 "" enoentStderr (by decide)).1]
  decide

/-- A successful unanchored hash scan returns exactly 40 lowercase hex
characters. -/
theorem findHex40_props (after : List Char → Bool) (l sha : List Char)
    (h : findHex40 after l = some sha) :
    sha.length = 40 ∧ sha.all isLowerHexChar = true := by
  induction l with
  | nil => simp [findHex40] at h
  | cons c cs ih =>
    cases hc : checkHex40At after (c :: cs) with
    | some s =>
      rw [findHex40, hc] at h
      cases h
      simp only [checkHex40At] at hc
      split at hc
      · rename_i hcond
        injection hc with hc2
        subst hc2
        simp only [Bool.and_eq_true, beq_iff_eq] at hcond
        exact ⟨hcond.1.1, hcond.1.2⟩
      · cases hc
    | none =>
      rw [findHex40, hc] at h
      exact ih h

/-- The getHEAD flow never performs a gc call: its trace holds only file
reads. -/
theorem getHEADRun_no_gc (fs : RepoFs) : HeadEvent.gcCall ∉ (getHEADRun fs).1 := by
  cases hp : fs.files "packed-refs" with
  | none => simp [getHEADRun, hp]
  | some pr =>
    cases hh : fs.files "HEAD" with
    | none => simp [getHEADRun, hp, hh]
    | some hcon =>
      cases hm : headRefMatch hcon with
      | none => simp [getHEADRun, hp, hh, hm]
      | some head =>
        by_cases hg : head = "" ∨ pr = ""
        · simp [getHEADRun, hp, hh, hm, hg]
        · cases hl : fs.files head with
          | none =>
            cases hf : findHex40 (afterSpaceRef head.data) pr.data <;>
              simp [getHEADRun, hp, hh, hm, hg, hl, hf]
          | some c =>
            by_cases hce : c = ""
            · cases hf : findHex40 (afterSpaceRef head.data) pr.data <;>
                simp [getHEADRun, hp, hh, hm, hg, hl, hce, hf]
            · cases hf : findHex40 afterNl c.data <;>
                simp [getHEADRun, hp, hh, hm, hg, hl, hce, hf]

/-- Claim C7: when packed-refs is absent, getHeadSha performs exactly one
git gc call before the single retried packed-refs read (the full trace is
the existence check, the gc call, then the three reads against the
post-gc filesystem), and with well-formed post-gc metadata the outcome is
a returned 40-character lowercase hex hash; when packed-refs is present,
no gc call appears in the trace. -/
theorem getHeadSha_gc_on_missing_packed_refs (fs gcFs : RepoFs)
    (pr hcon hd : String) (sha : List Char)
    (habs : fs.files "packed-refs" = none)
    (hpr : gcFs.files "packed-refs" = some pr)
    (hhead : gcFs.files "HEAD" = some hcon)
    (hmatch : headRefMatch hcon = some hd)
    (hne : hd ≠ "") (hprne : pr ≠ "")
    (hloose : gcFs.files hd = none)
    (hfind : findHex40 (afterSpaceRef hd.data) pr.data = some sha) :
    (getHeadShaRun fs gcFs).1
      = [HeadEvent.existsCheck "packed-refs" false, HeadEvent.gcCall,
          HeadEvent.readFileEv "packed-refs", HeadEvent.readFileEv "HEAD",
          HeadEvent.readFileEv hd] ∧
    (getHeadShaRun fs gcFs).1.count HeadEvent.gcCall = 1 ∧
    (getHeadShaRun fs gcFs).2 = HeadOutcome.result none (some (String.mk sha)) ∧
    isLowerHex40 (String.mk sha) = true ∧
    (∀ fs2 : RepoFs, ∀ c : String, fs2.files "packed-refs" = some c →
      HeadEvent.gcCall ∉ (getHeadShaRun fs2 gcFs).1) := by
  have hrun : getHEADRun gcFs
      = ([HeadEvent.readFileEv "packed-refs", HeadEvent.readFileEv "HEAD",
          HeadEvent.readFileEv hd],
         HeadOutcome.result none (some (String.mk sha))) := by
    simp [getHEADRun, hpr, hhead, hmatch, hloose, hne, hprne, hfind]
  have htrace : (getHeadShaRun fs gcFs).1
      = [HeadEvent.existsCheck "packed-refs" false, HeadEvent.gcCall,
          HeadEvent.readFileEv "packed-refs", HeadEvent.readFileEv "HEAD",
          HeadEvent.readFileEv hd] := by
    simp [getHeadShaRun, habs, hrun]
  obtain ⟨hlen, hhex⟩ := findHex40_props (afterSpaceRef hd.data) pr.data sha hfind
  refine ⟨htrace, ?_, ?_, ?_, ?_⟩
  · rw [htrace]
    simp [List.count_cons, List.count_nil]
  · simp [getHeadShaRun, habs, hrun]
  · show ((String.mk sha).length == 40 && (String.mk sha).data.all isLowerHexChar) = true
    have hlen2 : (String.mk sha).length = sha.length := rfl
    rw [hlen2, hlen]
    simpa using hhex
  · intro fs2 c hc2
    simp only [getHeadShaRun, hc2, List.mem_cons]
    rintro (h | h)
    · exact absurd h (by decide)
    · exact absurd h (getHEADRun_no_gc fs2)

/-- Claim C7 witness: with every file absent before gc and well-formed
packed-refs and HEAD after gc, the run performs exactly one gc call and
returns the 40-character hash from packed-refs. -/
theorem getHeadSha_gc_on_missing_packed_refs_witness :
    fsMissingPR.files "packed-refs" = none ∧
    (getHeadShaRun fsMissingPR fsAfterGc).1.count HeadEvent.gcCall = 1 ∧
    (getHeadShaRun fsMissingPR fsAfterGc).2
      = HeadOutcome.result none (some hashA) ∧
    isLowerHex40 hashA = true := by
  have h := getHeadSha_gc_on_missing_packed_refs fsMissingPR fsAfterGc prContent
    "ref: refs/heads/master\n" "refs/heads/master" (List.replicate 40 'a')
    rfl (by decide) (by decide) (by decide) (by decide) (by decide) (by decide) (by decide)
  exact ⟨rfl, h.2.1, h.2.2.1, h.2.2.2.1⟩

/-- Claim C10: when packed-refs exists but its content is the empty
string and HEAD parses, the checkDone guard treats the empty packed-refs
text as not yet read (falsy), so the getHeadSha run hangs: no queued
callback is ever invoked with either success or error. -/
theorem getHeadSha_empty_packed_refs_hangs (fs gcFs : RepoFs) (hcon head : String)
    (hpr : fs.files "packed-refs" = some "")
    (hhead : fs.files "HEAD" = some hcon)
    (hmatch : headRefMatch hcon = some head) :
    (getHeadShaRun fs gcFs).2 = HeadOutcome.hang := by
  simp [getHeadShaRun, hpr, getHEADRun, hhead, hmatch]

/-- Claim C10 witness: a concrete repository with an empty packed-refs and
a well-formed HEAD hangs. -/
theorem getHeadSha_empty_packed_refs_hangs_witness :
    fsEmptyPR.files "packed-refs" = some "" ∧
    headRefMatch "ref: refs/heads/master\n" = some "refs/heads/master" ∧
    (getHeadShaRun fsEmptyPR fsEmptyPR).2 = HeadOutcome.hang :=
  ⟨by decide, by decide, getHeadSha_empty_packed_refs_hangs fsEmptyPR fsEmptyPR
      "ref: refs/heads/master\n" "refs/heads/master" (by decide) (by decide) (by decide)⟩

end GitReader
